import Mathlib

/-!
A verification development for the `parsejson` repository (src/parsejson.h,
src/parsejson.cpp): a recursive-descent JSON parser building a cJSON-style
linked tree.  The C++ sources are shallowly embedded below; every definition
follows the corresponding source function statement by statement.  Machine
strings (`std::string`) are modelled as `List Char`, `size_t`/`uint32_t`
counters as `Nat` (the nesting limit of 1000 keeps `depth` far below 2^32, and
`pos` stays within `length + 1`, so fixed-width overflow is unreachable),
`double` scalars as `ℚ` (the exact value of the decoded decimal/hexadecimal
lexeme; rounding to binary64 is not modelled), and C++ exceptions as
`Except`.  `ParseBuffer` is passed by reference in the source, so every
embedded function returns the buffer alongside its `Except` result: mutations
made before a throw persist, exactly as in C++.
-/

namespace Parsejson

/-- The error taxonomy of the parser.  The source throws `ParseError` with a
formatted message; each message template carries at most the byte offset, so
the embedding keeps the kind plus that offset.  `outOfFuel` is an artifact of
the fuelled embedding of the mutually recursive parser functions and is never
produced when the fuel exceeds the number of nested calls. -/
inductive ParseErr where
  | badNumber (pos : Nat)
  | prematurelyTerminatedEscape (pos : Nat)
  | unknownEscape (pos : Nat)
  | nestingLimitExceeded (pos : Nat)
  | badObjectMemberName (pos : Nat)
  | badNameValueSeparator (pos : Nat)
  | invalidArrayContinuation (pos : Nat)
  | invalidObjectContinuation (pos : Nat)
  | unexpectedEOF
  | invalidJSON (pos : Nat)
  | trailingJunk (pos : Nat)
  | outOfFuel
  deriving DecidableEq, Repr

/-- `enum JSONType` from parsejson.h. -/
inductive JSONType where
  | j_object | j_array | j_string | j_number | j_bool | j_null
  deriving DecidableEq, Repr

/-- `struct JSONItem` from parsejson.h.  `next` and `child` are the owning
pointers (`NULL` = `none`); `prev` is the non-owning back-reference mirroring
`next` and is not represented (the owning chain determines it).  `name` is a
`std::string` that is empty until `parse_object` swaps the parsed member name
into it; the embedding records that assignment with `Option` (`none` = never
assigned).  The unused `uint_val`/`int_val` fields are dropped.  `new
JSONItem()` value-initializes, so the defaults are `NULL` pointers, empty
strings, `type = 0` and zero scalars; every dispatcher branch overwrites
`type` before the node can be observed. -/
inductive JSONItem where
  | mk (next : Option JSONItem) (child : Option JSONItem) (name : Option (List Char))
       (type : JSONType) (double_val : ℚ) (string_val : List Char) (bool_val : Bool)

def JSONItem.next : JSONItem → Option JSONItem
  | .mk n _ _ _ _ _ _ => n

def JSONItem.child : JSONItem → Option JSONItem
  | .mk _ c _ _ _ _ _ => c

def JSONItem.name : JSONItem → Option (List Char)
  | .mk _ _ nm _ _ _ _ => nm

def JSONItem.type : JSONItem → JSONType
  | .mk _ _ _ t _ _ _ => t

def JSONItem.double_val : JSONItem → ℚ
  | .mk _ _ _ _ d _ _ => d

def JSONItem.string_val : JSONItem → List Char
  | .mk _ _ _ _ _ s _ => s

def JSONItem.bool_val : JSONItem → Bool
  | .mk _ _ _ _ _ _ b => b

/-- Overwrite the `next` pointer (the `current->next = new_item` link). -/
def JSONItem.with_next : JSONItem → Option JSONItem → JSONItem
  | .mk _ c nm t d s b, nxt => .mk nxt c nm t d s b

/-- Overwrite the `name` field (the `current->name.swap(name)` assignment). -/
def JSONItem.with_name : JSONItem → Option (List Char) → JSONItem
  | .mk n c _ t d s b, nm => .mk n c nm t d s b

/-- `#define PARSER_NESTING_LIMIT 1000` (parsejson.h). -/
def PARSER_NESTING_LIMIT : Nat := 1000

/-- `struct ParseBuffer` from parsejson.h, extended with two ghost counters
that account for the heap effects of the parse: `allocated` counts every
`new JSONItem()` and `freed` every `delete` performed by `destroy_json`.
The counters exist only to observe leaks; no control flow reads them. -/
structure ParseBuffer where
  raw_json : List Char
  depth : Nat := 0
  pos : Nat := 0
  allocated : Nat := 0
  freed : Nat := 0
  deriving DecidableEq, Repr

/-- A fresh buffer over `s`, as the test harness builds it (`depth = 0`,
`pos = 0`). -/
def initSt (s : List Char) : ParseBuffer :=
  { raw_json := s }

/-- `raw_json[i]`.  `std::string::operator[]` at index `size()` returns the
null character (defined behaviour); the embedding extends that to every
out-of-range index, which the source only reaches through already-undefined
reads. -/
def getCh (s : List Char) (i : Nat) : Char :=
  s.getD i '\x00'

/-- `std::isspace` restricted to the ASCII bytes the inputs use. -/
def is_space (c : Char) : Bool :=
  c = ' ' || c = '\t' || c = '\n' || c = '\x0b' || c = '\x0c' || c = '\r'

/-- Number of leading whitespace characters of `l`. -/
def ws_count : List Char → Nat
  | [] => 0
  | c :: cs => if is_space c then ws_count cs + 1 else 0

/-- `skip_whitespace` (parsejson.cpp, lines 25-29): advance `pos` while
`isspace(raw_json[pos])`; the loop stops at the first non-space character or
at the terminating null at end of input. -/
def skip_whitespace (st : ParseBuffer) : ParseBuffer :=
  { st with pos := st.pos + ws_count (st.raw_json.drop st.pos) }

/-- `can_read` (parsejson.cpp, lines 31-34). -/
def can_read (st : ParseBuffer) (bytes : Nat) : Bool :=
  !st.raw_json.isEmpty && decide (st.pos + bytes ≤ st.raw_json.length)

/-- `std::isdigit` on ASCII. -/
def is_digit (c : Char) : Bool :=
  '0' ≤ c && c ≤ '9'

def is_hex_digit (c : Char) : Bool :=
  is_digit c || ('a' ≤ c && c ≤ 'f') || ('A' ≤ c && c ≤ 'F')

def digit_val (c : Char) : Nat := c.toNat - '0'.toNat

def hex_digit_val (c : Char) : Nat :=
  if is_digit c then digit_val c
  else if 'a' ≤ c && c ≤ 'f' then c.toNat - 'a'.toNat + 10
  else c.toNat - 'A'.toNat + 10

/-- Value of a digit string in the given base. -/
def digits_val (base : Nat) (f : Char → Nat) (ds : List Char) : Nat :=
  ds.foldl (fun acc c => acc * base + f c) 0

/-- Optional sign at the head of a lexeme: (negative?, characters consumed). -/
def strtod_sign : List Char → Bool × Nat
  | '-' :: _ => (true, 1)
  | '+' :: _ => (false, 1)
  | _ => (false, 0)

/-- A significand `digits [ '.' digits ]` over the digit class `isD`:
returns (characters consumed, integer digits, fraction digits); consumes
nothing when no digit is present (a lone `.` or sign is not a conversion). -/
def scan_significand (isD : Char → Bool) (cs : List Char) : Nat × List Char × List Char :=
  let ip := cs.takeWhile isD
  match cs.drop ip.length with
  | '.' :: rest2 =>
    let fp := rest2.takeWhile isD
    if ip.isEmpty && fp.isEmpty then (0, [], [])
    else (ip.length + 1 + fp.length, ip, fp)
  | _ => if ip.isEmpty then (0, [], []) else (ip.length, ip, [])

/-- An exponent part `m [sign] digits` with marker `m1`/`m2` (`e`/`E` or
`p`/`P`): (characters consumed, negative?, magnitude).  It is consumed only
when complete — a marker without digits is left unconsumed, as `strtod`
backtracks over it. -/
def scan_exponent (m1 m2 : Char) : List Char → Nat × Bool × Nat
  | [] => (0, false, 0)
  | c :: rest =>
    if c = m1 || c = m2 then
      let (eneg, sc) := strtod_sign rest
      let ds := (rest.drop sc).takeWhile is_digit
      if ds.isEmpty then (0, false, 0)
      else (1 + sc + ds.length, eneg, digits_val 10 digit_val ds)
    else (0, false, 0)

/-- Scale `v` by `base ^ exponent` with a signed exponent. -/
def apply_exponent (base : ℚ) (eneg : Bool) (emag : Nat) (v : ℚ) : ℚ :=
  if eneg then v / base ^ emag else v * base ^ emag

/-- The hexadecimal alternative of the `strtod` lexeme (after the sign):
`0x`/`0X`, a hex significand with at least one hex digit, and an optional
binary exponent.  `none` when the alternative does not apply (then the
decimal alternative consumes what it can, starting with the `0`). -/
def strtod_hex (body : List Char) : Option (Nat × ℚ) :=
  match body with
  | '0' :: x :: rest =>
    if x = 'x' || x = 'X' then
      let (n, ip, fp) := scan_significand is_hex_digit rest
      if n = 0 then none
      else
        let (en, eneg, emag) := scan_exponent 'p' 'P' (rest.drop n)
        some (2 + n + en,
          apply_exponent 2 eneg emag
            ((digits_val 16 hex_digit_val ip : ℚ) + (digits_val 16 hex_digit_val fp : ℚ) / 16 ^ fp.length))
    else none
  | _ => none

/-- The decimal alternative of the `strtod` lexeme (after the sign):
a decimal significand and an optional exponent; (0, 0) when no digit is
present (no conversion). -/
def strtod_dec (body : List Char) : Nat × ℚ :=
  let (n, ip, fp) := scan_significand is_digit body
  if n = 0 then (0, 0)
  else
    let (en, eneg, emag) := scan_exponent 'e' 'E' (body.drop n)
    (n + en,
      apply_exponent 10 eneg emag
        ((digits_val 10 digit_val ip : ℚ) + (digits_val 10 digit_val fp : ℚ) / 10 ^ fp.length))

/-- The C `strtod` lexeme recognition used by `parse_number`: the longest
initial subsequence of `cs` that is a floating lexeme, and its exact value.
Covers the decimal form `[sign] digits ['.' digits] [e[sign]digits]` and the
hexadecimal form `[sign] 0x hexdigits ['.' hexdigits] [p[sign]digits]` (the
binary exponent is optional for `strtod`); returns 0 consumed when no
conversion is possible.  The `inf`/`nan` spellings `strtod` also accepts have
no rational value and are reachable from the dispatcher only behind a leading
sign; no claim exercises them and they are not modelled.  (`parse_number` is
entered with `raw_json[pos]` a sign or digit and `pos < size`, so `strtod`'s
own leading-whitespace skip is vacuous.) -/
def strtod_lexeme (cs : List Char) : Nat × ℚ :=
  let (neg, sc) := strtod_sign cs
  let body := cs.drop sc
  match strtod_hex body with
  | some (n, v) => (sc + n, if neg then -v else v)
  | none =>
    let (n, v) := strtod_dec body
    if n = 0 then (0, 0)
    else (sc + n, if neg then -v else v)

/-- `parse_number` (parsejson.cpp, lines 38-50): `strtod` from
`&raw_json.data()[pos]` (the buffer is null-terminated at `size()`, so the
view is exactly `raw_json.drop pos`); `endptr == startptr` — zero characters
consumed — throws the bad-number error, otherwise `pos` advances by the
lexeme length. -/
def parse_number (st : ParseBuffer) : Except ParseErr ℚ × ParseBuffer :=
  let (n, v) := strtod_lexeme (st.raw_json.drop st.pos)
  if n = 0 then (.error (.badNumber st.pos), st)
  else (.ok v, { st with pos := st.pos + n })

/-- The `while` loop of `parse_string` (parsejson.cpp, lines 54-95), fuelled:
`parse_string` supplies fuel `size - pos + 1`, which strictly dominates the
loop's variant (each iteration advances `pos` by 1 or 2 while `pos < size`),
so the fuel case is unreachable from `parse_string`.  Errors are reported at
the current `pos` — the backslash — exactly where the source throws before
advancing.  In the source, the `case '"': case '\\': case '/':` arms append
the character and then fall through into the `default:` arm, which throws
the unknown-escape error unconditionally; the appended local string is
discarded by the throw, so those arms are indistinguishable from `default`
and the embedding sends every byte other than `b f n r t` to the error. -/
def parse_string_loop : Nat → List Char → Nat → List Char → (Except ParseErr (List Char)) × Nat
  | 0, _, pos, _ => (.error .outOfFuel, pos)
  | fuel + 1, s, pos, acc =>
    if (getCh s pos ≠ '"') ∧ pos < s.length then
      if getCh s pos ≠ '\\' then
        parse_string_loop fuel s (pos + 1) (acc ++ [getCh s pos])
      else if s.length - pos < 2 then
        (.error (.prematurelyTerminatedEscape pos), pos)
      else
        match getCh s (pos + 1) with
        | 'b' => parse_string_loop fuel s (pos + 2) (acc ++ ['\x08'])
        | 'f' => parse_string_loop fuel s (pos + 2) (acc ++ ['\x0c'])
        | 'n' => parse_string_loop fuel s (pos + 2) (acc ++ ['\n'])
        | 'r' => parse_string_loop fuel s (pos + 2) (acc ++ ['\r'])
        | 't' => parse_string_loop fuel s (pos + 2) (acc ++ ['\t'])
        | _ => (.error (.unknownEscape pos), pos)
    else
      (.ok acc, pos + 1)

/-- `parse_string` (parsejson.cpp, lines 52-98), entered with the cursor just
past the opening quote.  The final `pos + 1` of the loop is the
`input_buffer.pos++` consuming the closing quote; when the loop ended because
`pos` reached `size` (unterminated literal) that increment still happens and
leaves `pos = size + 1`. -/
def parse_string (st : ParseBuffer) : Except ParseErr (List Char) × ParseBuffer :=
  match parse_string_loop (st.raw_json.length - st.pos + 1) st.raw_json st.pos [] with
  | (.error e, p) => (.error e, { st with pos := p })
  | (.ok out, p) => (.ok out, { st with pos := p })

/-- `destroy_json` (parsejson.cpp, lines 222-234) frees the node, its whole
`next` chain and every `child` subtree; this counts the `delete`s it
performs.  Fuelled for the same reason as the parser (any fuel beyond the
node count is exact). -/
def destroy_count : Nat → Option JSONItem → Nat
  | _, none => 0
  | 0, some _ => 0
  | fuel + 1, some (.mk next child _ _ _ _ _) =>
    1 + destroy_count fuel child + destroy_count fuel next

/-- Length of a `next`-linked sibling chain (fuelled; exact for any fuel
beyond the chain length). -/
def chain_length : Nat → Option JSONItem → Nat
  | _, none => 0
  | 0, some _ => 0
  | fuel + 1, some (.mk next _ _ _ _ _ _) => 1 + chain_length fuel next

/-- Fold a list of parsed items (in source order) into the `next`-linked
chain the source builds incrementally: `parse_array`/`parse_object` keep a
`head` and a `current` pointer and append each new element with
`current->next = new_item; new_item->prev = current`.  The resulting owning
structure reachable from `head` is exactly this fold; `prev` is its
non-owning mirror. -/
def chain_of : List JSONItem → Option JSONItem
  | [] => none
  | it :: rest => some (it.with_next (chain_of rest))

/-!
The mutually recursive parser: `parse_json` (the value dispatcher,
parsejson.cpp lines 236-297) and `parse_array` / `parse_object` (lines
103-149 / 151-220).  The mutual recursion is fuelled: one unit of fuel is
consumed per nested call, so any fuel beyond the nesting of the calls (which
the nesting limit bounds anyway) never runs out.  The `try { ... }` block of
`parse_json` is the separate function `parse_json_try`; the `while` loops of
the container parsers are `parse_array_loop` / `parse_object_loop`, which
return the elements parsed so far in source order (the source links them into
the `head` chain as it goes; on an error the source simply throws, so the
already-linked chain is dropped without being freed — the embedding likewise
drops the accumulated list, and the ghost `freed` counter records no frees).
-/

mutual

/-- `parse_json` (parsejson.cpp, lines 236-297).  `new JSONItem()` bumps the
ghost `allocated` counter.  The `catch (ParseError &pe)` block calls
`destroy_json(item)` and rethrows: at every throw site inside the `try`
block the fresh node's `child` and `next` are still `NULL` (`child` is
assigned only as the final action of the array/object branches, after which
the block cannot throw), so the catch frees exactly one node — the ghost
`freed` counter gains 1.  The trailing-junk throw sits after the `try`/
`catch`, so it frees nothing. -/
def parse_json : Nat → ParseBuffer → Except ParseErr JSONItem × ParseBuffer
  | 0, st => (.error .outOfFuel, st)
  | fuel + 1, st0 =>
    let st1 := { st0 with allocated := st0.allocated + 1 }
    let st := skip_whitespace st1
    match parse_json_try fuel st with
    | (.error e, st') => (.error e, { st' with freed := st'.freed + 1 })
    | (.ok item, st') =>
      let st'' := skip_whitespace st'
      if st''.depth = 0 ∧ st''.pos ≠ st''.raw_json.length then
        (.error (.trailingJunk st''.pos), st'')
      else
        (.ok item, st'')

/-- The `try { ... }` block of `parse_json` (parsejson.cpp, lines 240-281):
the dispatcher's branch cascade.  Each branch builds the item the source
leaves behind on success (value-initialized defaults for the untouched
fields). -/
def parse_json_try : Nat → ParseBuffer → Except ParseErr JSONItem × ParseBuffer
  | 0, st => (.error .outOfFuel, st)
  | fuel + 1, st =>
    if can_read st 1 && (getCh st.raw_json st.pos == '"') then
      let st1 := { st with pos := st.pos + 1 }
      match parse_string st1 with
      | (.error e, st') => (.error e, st')
      | (.ok sv, st') => (.ok (.mk none none none .j_string 0 sv false), st')
    else if can_read st 1 &&
        (getCh st.raw_json st.pos == '-' || getCh st.raw_json st.pos == '+' ||
         is_digit (getCh st.raw_json st.pos)) then
      match parse_number st with
      | (.error e, st') => (.error e, st')
      | (.ok v, st') => (.ok (.mk none none none .j_number v [] false), st')
    else if can_read st 1 && (getCh st.raw_json st.pos == '[') then
      let st1 := { st with pos := st.pos + 1 }
      match parse_array fuel st1 with
      | (.error e, st') => (.error e, st')
      | (.ok child, st') => (.ok (.mk none child none .j_array 0 [] false), st')
    else if can_read st 1 && (getCh st.raw_json st.pos == '{') then
      let st1 := { st with pos := st.pos + 1 }
      match parse_object fuel st1 with
      | (.error e, st') => (.error e, st')
      | (.ok child, st') => (.ok (.mk none child none .j_object 0 [] false), st')
    else if can_read st 4 && ((st.raw_json.drop st.pos).take 4 == ['n', 'u', 'l', 'l']) then
      (.ok (.mk none none none .j_null 0 [] false), { st with pos := st.pos + 4 })
    else if can_read st 1 && ((st.raw_json.drop st.pos).take 4 == ['t', 'r', 'u', 'e']) then
      (.ok (.mk none none none .j_bool 0 [] true), { st with pos := st.pos + 4 })
    else if can_read st 1 && ((st.raw_json.drop st.pos).take 5 == ['f', 'a', 'l', 's', 'e']) then
      (.ok (.mk none none none .j_bool 0 [] false), { st with pos := st.pos + 5 })
    else
      (.error (.invalidJSON st.pos), st)

/-- `parse_array` (parsejson.cpp, lines 103-149).  Entry increments `depth`
and throws past the limit without decrementing.  The empty-array fast path
(lines 113-116) returns `NULL` without consuming the `]` and without
decrementing `depth`, exactly as the source does.  After the loop, a missing
`]` is the unexpected-EOF error (thrown without position); otherwise the `]`
is consumed and `depth` decremented. -/
def parse_array : Nat → ParseBuffer → Except ParseErr (Option JSONItem) × ParseBuffer
  | 0, st => (.error .outOfFuel, st)
  | fuel + 1, st0 =>
    let st1 := { st0 with depth := st0.depth + 1 }
    if st1.depth > PARSER_NESTING_LIMIT then
      (.error (.nestingLimitExceeded st1.pos), st1)
    else
      let st := skip_whitespace st1
      if getCh st.raw_json st.pos == ']' then
        (.ok none, st)
      else
        match parse_array_loop fuel st [] with
        | (.error e, st') => (.error e, st')
        | (.ok items, st') =>
          if getCh st'.raw_json st'.pos ≠ ']' then
            (.error .unexpectedEOF, st')
          else
            (.ok (chain_of items), { st' with pos := st'.pos + 1, depth := st'.depth - 1 })

/-- The `while` loop of `parse_array` (parsejson.cpp, lines 119-141): the
condition `raw_json[pos] != ']' && pos < size` guards each iteration; the
body skips whitespace, parses one element, links it, then either breaks on
`]`, throws on a byte other than `,`, or consumes the `,` and repeats. -/
def parse_array_loop : Nat → ParseBuffer → List JSONItem → Except ParseErr (List JSONItem) × ParseBuffer
  | 0, st, _ => (.error .outOfFuel, st)
  | fuel + 1, st, acc =>
    if (getCh st.raw_json st.pos ≠ ']') ∧ st.pos < st.raw_json.length then
      let st1 := skip_whitespace st
      match parse_json fuel st1 with
      | (.error e, st') => (.error e, st')
      | (.ok item, st') =>
        let acc1 := acc ++ [item]
        let st2 := skip_whitespace st'
        if getCh st2.raw_json st2.pos == ']' then
          (.ok acc1, st2)
        else if getCh st2.raw_json st2.pos ≠ ',' then
          (.error (.invalidArrayContinuation st2.pos), st2)
        else
          parse_array_loop fuel { st2 with pos := st2.pos + 1 } acc1
    else
      (.ok acc, st)

/-- `parse_object` (parsejson.cpp, lines 151-220): same shape as
`parse_array`, including the empty-object fast path that neither consumes
the `}` nor decrements `depth`. -/
def parse_object : Nat → ParseBuffer → Except ParseErr (Option JSONItem) × ParseBuffer
  | 0, st => (.error .outOfFuel, st)
  | fuel + 1, st0 =>
    let st1 := { st0 with depth := st0.depth + 1 }
    if st1.depth > PARSER_NESTING_LIMIT then
      (.error (.nestingLimitExceeded st1.pos), st1)
    else
      let st := skip_whitespace st1
      if getCh st.raw_json st.pos == '}' then
        (.ok none, st)
      else
        match parse_object_loop fuel st [] with
        | (.error e, st') => (.error e, st')
        | (.ok items, st') =>
          if getCh st'.raw_json st'.pos ≠ '}' then
            (.error .unexpectedEOF, st')
          else
            (.ok (chain_of items), { st' with pos := st'.pos + 1, depth := st'.depth - 1 })

/-- The `while` loop of `parse_object` (parsejson.cpp, lines 167-212): each
iteration requires `"` (member-name error otherwise), scans the name,
requires `:` (separator error otherwise), parses the value, swaps the name
onto it, then breaks on `}`, throws on a byte other than `,`, or consumes
the `,` and repeats. -/
def parse_object_loop : Nat → ParseBuffer → List JSONItem → Except ParseErr (List JSONItem) × ParseBuffer
  | 0, st, _ => (.error .outOfFuel, st)
  | fuel + 1, st, acc =>
    if (getCh st.raw_json st.pos ≠ '}') ∧ st.pos < st.raw_json.length then
      let st1 := skip_whitespace st
      if !(can_read st1 1 && (getCh st1.raw_json st1.pos == '"')) then
        (.error (.badObjectMemberName st1.pos), st1)
      else
        let st2 := { st1 with pos := st1.pos + 1 }
        match parse_string st2 with
        | (.error e, st') => (.error e, st')
        | (.ok nm, st3) =>
          let st4 := skip_whitespace st3
          if !(can_read st4 1 && (getCh st4.raw_json st4.pos == ':')) then
            (.error (.badNameValueSeparator st4.pos), st4)
          else
            let st5 := skip_whitespace { st4 with pos := st4.pos + 1 }
            match parse_json fuel st5 with
            | (.error e, st') => (.error e, st')
            | (.ok item, st6) =>
              let acc1 := acc ++ [item.with_name (some nm)]
              let st7 := skip_whitespace st6
              if getCh st7.raw_json st7.pos == '}' then
                (.ok acc1, st7)
              else if !(can_read st7 1 && (getCh st7.raw_json st7.pos == ',')) then
                (.error (.invalidObjectContinuation st7.pos), st7)
              else
                parse_object_loop fuel { st7 with pos := st7.pos + 1 } acc1
    else
      (.ok acc, st)

end

/-! Observation helpers for stating results of concrete runs. -/

/-- The error of a run, if it failed. -/
def errOf {α : Type} : Except ParseErr α × ParseBuffer → Option ParseErr
  | (.error e, _) => some e
  | (.ok _, _) => none

/-- Did the run return a value (no exception)? -/
def is_ok {α : Type} : Except ParseErr α × ParseBuffer → Bool
  | (.ok _, _) => true
  | (.error _, _) => false

/-- Length of the returned root's `child` chain (`none` when the run failed).
Chain fuel 10 is exact for every chain shorter than 10 nodes. -/
def result_child_chain : Except ParseErr JSONItem × ParseBuffer → Option Nat
  | (.ok it, _) => some (chain_length 10 it.child)
  | (.error _, _) => none

/-- `k` nested arrays around the number `1`: the text `[[…[1]…]]` with
maximum container nesting `k`. -/
def deepArrays (k : Nat) : List Char :=
  List.replicate k '[' ++ ['1'] ++ List.replicate k ']'

/-- An input whose maximum container nesting is `PARSER_NESTING_LIMIT + 1`:
a two-element array `[[],D]` whose second element `D` is `deepArrays 1000`. -/
def c7_input : List Char := ['[', '[', ']', ','] ++ deepArrays 1000 ++ [']']

/-- Maximum bracket-nesting depth of an input.  For bracket-balanced inputs
that contain no string literals (such as `c7_input`) this is exactly the
maximum container nesting of the JSON text. -/
def bracket_nesting_aux : List Char → Nat → Nat → Nat
  | [], _, m => m
  | c :: cs, d, m =>
    if c = '[' || c = '{' then bracket_nesting_aux cs (d + 1) (max m (d + 1))
    else if c = ']' || c = '}' then bracket_nesting_aux cs (d - 1) m
    else bracket_nesting_aux cs d m

def bracket_nesting (s : List Char) : Nat := bracket_nesting_aux s 0 0

/-- The cursor-progress contract relating a state to the state a parser
function leaves behind: the input bytes are untouched, `pos` does not
decrease, and `pos` stays within `length + 1` whenever it started there
(`length + 1` — not `length` — is the tight bound: `parse_string` leaves
`pos = length + 1` on an unterminated string literal). -/
def PosOk (st st' : ParseBuffer) : Prop :=
  st'.raw_json = st.raw_json ∧ st.pos ≤ st'.pos ∧
    (st.pos ≤ st.raw_json.length + 1 → st'.pos ≤ st.raw_json.length + 1)

/-!
## Supporting lemmas

`c7_input` is ~2000 characters long, so evaluating the parser on it by brute
kernel reduction is impractical; but the run only ever inspects the first
four bytes (and the input length), so it is characterised symbolically over
an arbitrary tail of the right length.
-/

theorem bracket_nesting_aux_open (k : Nat) :
    ∀ (rest : List Char) (d m : Nat), d ≤ m →
      bracket_nesting_aux (List.replicate k '[' ++ rest) d m =
        bracket_nesting_aux rest (d + k) (max m (d + k)) := by
  induction k with
  | zero =>
    intro rest d m hdm
    simp [Nat.max_eq_left hdm]
  | succ k ih =>
    intro rest d m hdm
    rw [List.replicate_succ, List.cons_append]
    rw [show bracket_nesting_aux ('[' :: (List.replicate k '[' ++ rest)) d m =
        bracket_nesting_aux (List.replicate k '[' ++ rest) (d + 1) (max m (d + 1)) from by
      simp [bracket_nesting_aux]]
    rw [ih rest (d + 1) (max m (d + 1)) (Nat.le_max_right _ _)]
    have h1 : d + 1 ≤ d + 1 + k := by omega
    have h2 : d + 1 + k = d + (k + 1) := by omega
    rw [Nat.max_assoc, Nat.max_eq_right h1, h2]

theorem bracket_nesting_aux_close (k : Nat) :
    ∀ (rest : List Char) (d m : Nat), k ≤ d →
      bracket_nesting_aux (List.replicate k ']' ++ rest) d m =
        bracket_nesting_aux rest (d - k) m := by
  induction k with
  | zero => intro rest d m _; simp
  | succ k ih =>
    intro rest d m hkd
    rw [List.replicate_succ, List.cons_append]
    rw [show bracket_nesting_aux (']' :: (List.replicate k ']' ++ rest)) d m =
        bracket_nesting_aux (List.replicate k ']' ++ rest) (d - 1) m from by
      simp [bracket_nesting_aux]]
    rw [ih rest (d - 1) m (by omega)]
    congr 1
    omega

/-- The maximum container nesting of `c7_input` is exactly 1001. -/
theorem bracket_nesting_c7 : bracket_nesting c7_input = PARSER_NESTING_LIMIT + 1 := by
  have hshape : c7_input =
      '[' :: '[' :: ']' :: ',' ::
        (List.replicate 1000 '[' ++ ('1' :: (List.replicate 1000 ']' ++ [']']))) := by
    rw [c7_input, deepArrays]
    simp only [List.cons_append, List.nil_append, List.append_assoc]
  rw [bracket_nesting, hshape]
  rw [show ∀ rest, bracket_nesting_aux ('[' :: '[' :: ']' :: ',' :: rest) 0 0 =
      bracket_nesting_aux rest 1 2 from fun rest => rfl,
    bracket_nesting_aux_open 1000 _ 1 2 (by omega)]
  rw [show (1 : Nat) + 1000 = 1001 from rfl, show max 2 1001 = 1001 from rfl]
  rw [show ∀ rest, bracket_nesting_aux ('1' :: rest) 1001 1001 =
      bracket_nesting_aux rest 1001 1001 from fun rest => rfl]
  rw [bracket_nesting_aux_close 1000 _ 1001 1001 (by omega)]
  rfl

set_option maxRecDepth 8000 in
/-- Running the parser on any input of the form `[[],t` (length 2006 in
total) returns successfully at `pos = 3` with `depth` still 1: the
empty-container fast path leaves the first `]` unconsumed, the outer array
loop breaks on it and closes, and the elevated `depth` disables the
trailing-junk check.  The tail `t` is never inspected. -/
theorem parse_json_c7_shape (t : List Char) (ht : t.length = 2002) :
    parse_json 20 (initSt ('[' :: '[' :: ']' :: ',' :: t)) =
      (.ok (.mk none (some (.mk none none none .j_array 0 [] false)) none .j_array 0 [] false),
       { raw_json := '[' :: '[' :: ']' :: ',' :: t, depth := 1, pos := 3,
         allocated := 2, freed := 0 }) := by
  simp +decide [parse_json, parse_json_try, parse_array, parse_array_loop, initSt,
    skip_whitespace, ws_count, getCh, can_read, is_space, is_digit, chain_of,
    JSONItem.with_next, PARSER_NESTING_LIMIT, ht]

/-!
## Cursor-progress lemmas (claim C6)

`PosOk st st'` is proved for every scanner and parser function: the input is
never modified, `pos` never moves backwards, and `pos` stays within
`length + 1`.
-/

theorem posOk_refl (st : ParseBuffer) : PosOk st st :=
  ⟨rfl, Nat.le_refl _, fun h => h⟩

theorem posOk_trans {a b c : ParseBuffer} (h1 : PosOk a b) (h2 : PosOk b c) : PosOk a c := by
  obtain ⟨r1, p1, q1⟩ := h1
  obtain ⟨r2, p2, q2⟩ := h2
  rw [r1] at q2
  exact ⟨r2.trans r1, p1.trans p2, fun h => q2 (q1 h)⟩

/-- States agreeing on the input and the cursor are interchangeable ends of a
`PosOk` step (covers updates of `depth` and of the ghost counters). -/
theorem posOk_same_pos {st st' : ParseBuffer} (h1 : st'.raw_json = st.raw_json)
    (h2 : st'.pos = st.pos) : PosOk st st' :=
  ⟨h1, h2.ge, fun h => h2.le.trans h⟩

theorem ws_count_le (l : List Char) : ws_count l ≤ l.length := by
  induction l with
  | nil => simp [ws_count]
  | cons c cs ih =>
    simp only [ws_count, List.length_cons]
    split <;> omega

theorem posOk_skip (st : ParseBuffer) : PosOk st (skip_whitespace st) := by
  refine ⟨rfl, Nat.le_add_right _ _, fun h => ?_⟩
  have h1 := ws_count_le (st.raw_json.drop st.pos)
  rw [List.length_drop] at h1
  simp only [skip_whitespace]
  omega

theorem getCh_eq_nul_of_ge {s : List Char} {i : Nat} (h : s.length ≤ i) :
    getCh s i = '\x00' := by
  simp [getCh, List.getD, List.getElem?_eq_none h]

theorem lt_of_getCh_ne {s : List Char} {i : Nat} (h : getCh s i ≠ '\x00') :
    i < s.length := by
  by_contra hc
  exact h (getCh_eq_nul_of_ge (by omega))

theorem can_read_le {st : ParseBuffer} {n : Nat} (h : can_read st n = true) :
    st.pos + n ≤ st.raw_json.length := by
  simp only [can_read, Bool.and_eq_true, decide_eq_true_eq] at h
  exact h.2

theorem pos_add_le_of_take_eq {s : List Char} {p n : Nat} {l : List Char}
    (hp : p ≤ s.length) (h : (s.drop p).take n = l) (hl : l.length = n) :
    p + n ≤ s.length := by
  have h1 : ((s.drop p).take n).length = n := by rw [h, hl]
  rw [List.length_take, List.length_drop, Nat.min_def] at h1
  split at h1 <;> omega

theorem length_takeWhile_le' (p : Char → Bool) (l : List Char) :
    (l.takeWhile p).length ≤ l.length := by
  induction l with
  | nil => simp [List.takeWhile]
  | cons c cs ih =>
    simp only [List.takeWhile, List.length_cons]
    split
    · simp only [List.length_cons]
      omega
    · simp

theorem strtod_sign_le (cs : List Char) : (strtod_sign cs).2 ≤ cs.length := by
  unfold strtod_sign
  split <;> simp

theorem scan_significand_le (isD : Char → Bool) (cs : List Char) :
    (scan_significand isD cs).1 ≤ cs.length := by
  have hip := length_takeWhile_le' isD cs
  simp only [scan_significand]
  split
  next rest2 heq =>
    have hlen := congrArg List.length heq
    rw [List.length_drop, List.length_cons] at hlen
    have hfp := length_takeWhile_le' isD rest2
    split
    · simp
    · simp only
      omega
  next =>
    split
    · simp
    · simpa using hip

theorem scan_exponent_le (m1 m2 : Char) (cs : List Char) :
    (scan_exponent m1 m2 cs).1 ≤ cs.length := by
  unfold scan_exponent
  match cs with
  | [] => simp
  | c :: rest =>
    simp only
    split
    · rcases hs : strtod_sign rest with ⟨eneg, sc⟩
      have hsc : sc ≤ rest.length := by
        have := strtod_sign_le rest
        rw [hs] at this
        exact this
      simp only [hs]
      have hds := length_takeWhile_le' is_digit (rest.drop sc)
      rw [List.length_drop] at hds
      split
      · simp
      · simp only [List.length_cons]
        omega
    · simp

theorem strtod_hex_le {body : List Char} {n : Nat} {v : ℚ}
    (h : strtod_hex body = some (n, v)) : n ≤ body.length := by
  unfold strtod_hex at h
  split at h
  next x rest =>
    split at h
    · rcases hsig : scan_significand is_hex_digit rest with ⟨m, ip, fp⟩
      have hm : m ≤ rest.length := by
        have := scan_significand_le is_hex_digit rest
        rw [hsig] at this
        exact this
      rw [hsig] at h
      simp only at h
      split at h
      · exact absurd h (by simp)
      · rcases hexp : scan_exponent 'p' 'P' (rest.drop m) with ⟨en, eneg, emag⟩
        have hen : en ≤ rest.length - m := by
          have := scan_exponent_le 'p' 'P' (rest.drop m)
          rw [hexp, List.length_drop] at this
          exact this
        rw [hexp] at h
        simp only [Option.some_inj, Prod.mk.injEq] at h
        simp only [List.length_cons]
        omega
    · exact absurd h (by simp)
  next => exact absurd h (by simp)

theorem strtod_dec_le (body : List Char) : (strtod_dec body).1 ≤ body.length := by
  unfold strtod_dec
  rcases hsig : scan_significand is_digit body with ⟨m, ip, fp⟩
  have hm : m ≤ body.length := by
    have := scan_significand_le is_digit body
    rw [hsig] at this
    exact this
  simp only
  split
  · simp
  · rcases hexp : scan_exponent 'e' 'E' (body.drop m) with ⟨en, eneg, emag⟩
    have hen : en ≤ body.length - m := by
      have := scan_exponent_le 'e' 'E' (body.drop m)
      rw [hexp, List.length_drop] at this
      exact this
    simp only [hexp]
    omega

theorem strtod_lexeme_le (cs : List Char) : (strtod_lexeme cs).1 ≤ cs.length := by
  unfold strtod_lexeme
  rcases hs : strtod_sign cs with ⟨neg, sc⟩
  have hsc : sc ≤ cs.length := by
    have := strtod_sign_le cs
    rw [hs] at this
    exact this
  simp only
  split
  next n v hhex =>
    have := strtod_hex_le hhex
    rw [List.length_drop] at this
    simp only
    omega
  next hhex =>
    rcases hdec : strtod_dec (cs.drop sc) with ⟨n, v⟩
    have hn : n ≤ cs.length - sc := by
      have := strtod_dec_le (cs.drop sc)
      rw [hdec, List.length_drop] at this
      exact this
    simp only [hdec]
    split
    · simp
    · simp only
      omega

theorem posOk_parse_number (st : ParseBuffer) : PosOk st (parse_number st).2 := by
  unfold parse_number
  rcases h : strtod_lexeme (st.raw_json.drop st.pos) with ⟨n, v⟩
  have hn : n ≤ st.raw_json.length - st.pos := by
    have := strtod_lexeme_le (st.raw_json.drop st.pos)
    rw [h, List.length_drop] at this
    exact this
  simp only [h]
  split
  · exact posOk_refl st
  · exact ⟨rfl, Nat.le_add_right _ _, fun hp => by simp only; omega⟩

theorem parse_string_loop_pos (fuel : Nat) :
    ∀ (s : List Char) (pos : Nat) (acc : List Char), pos ≤ s.length →
      pos ≤ (parse_string_loop fuel s pos acc).2 ∧
        (parse_string_loop fuel s pos acc).2 ≤ s.length + 1 := by
  induction fuel with
  | zero =>
    intro s pos acc h
    simp only [parse_string_loop]
    omega
  | succ fuel ih =>
    intro s pos acc h
    rw [parse_string_loop]
    split
    next hcond =>
      obtain ⟨hne, hlt⟩ := hcond
      split
      · have h' := ih s (pos + 1) (acc ++ [getCh s pos]) (by omega)
        omega
      · split
        next => simp only; omega
        next hesc =>
          have h2 : pos + 2 ≤ s.length := by omega
          split
          · have h' := ih s (pos + 2) (acc ++ ['\x08']) (by omega)
            omega
          · have h' := ih s (pos + 2) (acc ++ ['\x0c']) (by omega)
            omega
          · have h' := ih s (pos + 2) (acc ++ ['\n']) (by omega)
            omega
          · have h' := ih s (pos + 2) (acc ++ ['\r']) (by omega)
            omega
          · have h' := ih s (pos + 2) (acc ++ ['\t']) (by omega)
            omega
          · simp only; omega
    next => simp only; omega

theorem posOk_parse_string {st : ParseBuffer} (h : st.pos ≤ st.raw_json.length) :
    PosOk st (parse_string st).2 := by
  unfold parse_string
  rcases hl : parse_string_loop (st.raw_json.length - st.pos + 1) st.raw_json st.pos []
    with ⟨r, p⟩
  have hp := parse_string_loop_pos (st.raw_json.length - st.pos + 1) st.raw_json st.pos [] h
  rw [hl] at hp
  cases r <;> exact ⟨rfl, hp.1, fun _ => hp.2⟩

/-- A cursor advance of `k` that stays inside the input. -/
theorem posOk_bump {st : ParseBuffer} {k : Nat} (h : st.pos + k ≤ st.raw_json.length) :
    PosOk st { st with pos := st.pos + k } :=
  ⟨rfl, Nat.le_add_right _ _, fun _ => Nat.le_succ_of_le h⟩

/-- `PosOk` for every parser function, by mutual induction on the fuel: the
parsers never modify the input, never move the cursor backwards, and keep it
within `length + 1`. -/
theorem parser_posOk (fuel : Nat) :
    (∀ st, PosOk st (parse_json fuel st).2)
  ∧ (∀ st, PosOk st (parse_json_try fuel st).2)
  ∧ (∀ st, PosOk st (parse_array fuel st).2)
  ∧ (∀ st acc, PosOk st (parse_array_loop fuel st acc).2)
  ∧ (∀ st, PosOk st (parse_object fuel st).2)
  ∧ (∀ st acc, PosOk st (parse_object_loop fuel st acc).2) := by
  induction fuel with
  | zero =>
    exact ⟨fun st => posOk_refl st, fun st => posOk_refl st, fun st => posOk_refl st,
           fun st _ => posOk_refl st, fun st => posOk_refl st, fun st _ => posOk_refl st⟩
  | succ fuel ih =>
    obtain ⟨ihj, iht, iha, ihal, iho, ihol⟩ := ih
    refine ⟨?_, ?_, ?_, ?_, ?_, ?_⟩
    -- parse_json
    · intro st
      simp only [parse_json]
      split
      next e st' heq =>
        have h1 := iht (skip_whitespace { st with allocated := st.allocated + 1 })
        rw [heq] at h1
        exact posOk_trans (posOk_trans (posOk_same_pos rfl rfl) (posOk_skip _))
          (posOk_trans h1 (posOk_same_pos rfl rfl))
      next item st' heq =>
        have h1 := iht (skip_whitespace { st with allocated := st.allocated + 1 })
        rw [heq] at h1
        have hA : PosOk st st' :=
          posOk_trans (posOk_trans (posOk_same_pos rfl rfl) (posOk_skip _)) h1
        split
        next => exact posOk_trans hA (posOk_skip st')
        next => exact posOk_trans hA (posOk_skip st')
    -- parse_json_try
    · intro st
      simp only [parse_json_try]
      split
      next hc =>
        rw [Bool.and_eq_true] at hc
        have hcr := can_read_le hc.1
        have hb : PosOk st { st with pos := st.pos + 1 } := posOk_bump hcr
        split
        next e st' heq =>
          have hps := @posOk_parse_string
            { st with pos := st.pos + 1 } (show st.pos + 1 ≤ st.raw_json.length from hcr)
          rw [heq] at hps
          exact posOk_trans hb hps
        next sv st' heq =>
          have hps := @posOk_parse_string
            { st with pos := st.pos + 1 } (show st.pos + 1 ≤ st.raw_json.length from hcr)
          rw [heq] at hps
          exact posOk_trans hb hps
      next =>
        split
        next hc =>
          split
          next e st' heq =>
            have hpn := posOk_parse_number st
            rw [heq] at hpn
            exact hpn
          next v st' heq =>
            have hpn := posOk_parse_number st
            rw [heq] at hpn
            exact hpn
        next =>
          split
          next hc =>
            rw [Bool.and_eq_true] at hc
            have hcr := can_read_le hc.1
            have hb : PosOk st { st with pos := st.pos + 1 } := posOk_bump hcr
            split
            next e st' heq =>
              have ha := iha { st with pos := st.pos + 1 }
              rw [heq] at ha
              exact posOk_trans hb ha
            next child st' heq =>
              have ha := iha { st with pos := st.pos + 1 }
              rw [heq] at ha
              exact posOk_trans hb ha
          next =>
            split
            next hc =>
              rw [Bool.and_eq_true] at hc
              have hcr := can_read_le hc.1
              have hb : PosOk st { st with pos := st.pos + 1 } := posOk_bump hcr
              split
              next e st' heq =>
                have ho := iho { st with pos := st.pos + 1 }
                rw [heq] at ho
                exact posOk_trans hb ho
              next child st' heq =>
                have ho := iho { st with pos := st.pos + 1 }
                rw [heq] at ho
                exact posOk_trans hb ho
            next =>
              split
              next hc =>
                rw [Bool.and_eq_true] at hc
                exact posOk_bump (can_read_le hc.1)
              next =>
                split
                next hc =>
                  rw [Bool.and_eq_true, beq_iff_eq] at hc
                  have hcr := can_read_le hc.1
                  exact posOk_bump (pos_add_le_of_take_eq (by omega) hc.2 rfl)
                next =>
                  split
                  next hc =>
                    rw [Bool.and_eq_true, beq_iff_eq] at hc
                    have hcr := can_read_le hc.1
                    exact posOk_bump (pos_add_le_of_take_eq (by omega) hc.2 rfl)
                  next => exact posOk_refl st
    -- parse_array
    · intro st
      simp only [parse_array]
      split
      next => exact posOk_same_pos rfl rfl
      next =>
        split
        next => exact posOk_trans (posOk_same_pos rfl rfl) (posOk_skip _)
        next =>
          split
          next e st' heq =>
            have hl := ihal (skip_whitespace { st with depth := st.depth + 1 }) []
            rw [heq] at hl
            exact posOk_trans (posOk_trans (posOk_same_pos rfl rfl) (posOk_skip _)) hl
          next items st' heq =>
            have hl := ihal (skip_whitespace { st with depth := st.depth + 1 }) []
            rw [heq] at hl
            have hA : PosOk st st' :=
              posOk_trans (posOk_trans (posOk_same_pos rfl rfl) (posOk_skip _)) hl
            split
            next => exact hA
            next hcl =>
              have hlt := lt_of_getCh_ne (show getCh st'.raw_json st'.pos ≠ '\x00' by
                rw [not_not.mp hcl]; decide)
              exact posOk_trans hA ⟨rfl, Nat.le_add_right _ _, fun _ => Nat.le_succ_of_le hlt⟩
    -- parse_array_loop
    · intro st acc
      simp only [parse_array_loop]
      split
      next hcond =>
        split
        next e st' heq =>
          have hj := ihj (skip_whitespace st)
          rw [heq] at hj
          exact posOk_trans (posOk_skip st) hj
        next item st' heq =>
          have hj := ihj (skip_whitespace st)
          rw [heq] at hj
          have hA : PosOk st (skip_whitespace st') :=
            posOk_trans (posOk_trans (posOk_skip st) hj) (posOk_skip st')
          split
          next => exact hA
          next =>
            split
            next => exact hA
            next hcm =>
              have hlt := lt_of_getCh_ne
                (show getCh (skip_whitespace st').raw_json (skip_whitespace st').pos ≠ '\x00' by
                  rw [not_not.mp hcm]; decide)
              exact posOk_trans (posOk_trans hA (posOk_bump hlt)) (ihal _ _)
      next => exact posOk_refl st
    -- parse_object
    · intro st
      simp only [parse_object]
      split
      next => exact posOk_same_pos rfl rfl
      next =>
        split
        next => exact posOk_trans (posOk_same_pos rfl rfl) (posOk_skip _)
        next =>
          split
          next e st' heq =>
            have hl := ihol (skip_whitespace { st with depth := st.depth + 1 }) []
            rw [heq] at hl
            exact posOk_trans (posOk_trans (posOk_same_pos rfl rfl) (posOk_skip _)) hl
          next items st' heq =>
            have hl := ihol (skip_whitespace { st with depth := st.depth + 1 }) []
            rw [heq] at hl
            have hA : PosOk st st' :=
              posOk_trans (posOk_trans (posOk_same_pos rfl rfl) (posOk_skip _)) hl
            split
            next => exact hA
            next hcl =>
              have hlt := lt_of_getCh_ne (show getCh st'.raw_json st'.pos ≠ '\x00' by
                rw [not_not.mp hcl]; decide)
              exact posOk_trans hA ⟨rfl, Nat.le_add_right _ _, fun _ => Nat.le_succ_of_le hlt⟩
    -- parse_object_loop
    · intro st acc
      simp only [parse_object_loop]
      split
      next hcond =>
        split
        next => exact posOk_skip st
        next hname =>
          rw [Bool.not_eq_true, Bool.not_eq_false', Bool.and_eq_true] at hname
          have hcr1 := can_read_le hname.1
          have hb1 : PosOk st { skip_whitespace st with pos := (skip_whitespace st).pos + 1 } :=
            posOk_trans (posOk_skip st) (posOk_bump hcr1)
          split
          next e st' heq =>
            have hps := @posOk_parse_string
              { skip_whitespace st with pos := (skip_whitespace st).pos + 1 }
              (show (skip_whitespace st).pos + 1 ≤ (skip_whitespace st).raw_json.length from hcr1)
            rw [heq] at hps
            exact posOk_trans hb1 hps
          next nm st3 heq =>
            have hps := @posOk_parse_string
              { skip_whitespace st with pos := (skip_whitespace st).pos + 1 }
              (show (skip_whitespace st).pos + 1 ≤ (skip_whitespace st).raw_json.length from hcr1)
            rw [heq] at hps
            have hA : PosOk st (skip_whitespace st3) :=
              posOk_trans hb1 (posOk_trans hps (posOk_skip st3))
            split
            next => exact hA
            next hsep =>
              rw [Bool.not_eq_true, Bool.not_eq_false', Bool.and_eq_true] at hsep
              have hcr2 := can_read_le hsep.1
              have hB : PosOk st
                  (skip_whitespace { skip_whitespace st3 with pos := (skip_whitespace st3).pos + 1 }) :=
                posOk_trans hA (posOk_trans (posOk_bump hcr2) (posOk_skip _))
              split
              next e st' heq2 =>
                have hj := ihj (skip_whitespace
                  { skip_whitespace st3 with pos := (skip_whitespace st3).pos + 1 })
                rw [heq2] at hj
                exact posOk_trans hB hj
              next item st6 heq2 =>
                have hj := ihj (skip_whitespace
                  { skip_whitespace st3 with pos := (skip_whitespace st3).pos + 1 })
                rw [heq2] at hj
                have hC : PosOk st (skip_whitespace st6) :=
                  posOk_trans hB (posOk_trans hj (posOk_skip st6))
                split
                next => exact hC
                next =>
                  split
                  next => exact hC
                  next hcm =>
                    rw [Bool.not_eq_true, Bool.not_eq_false', Bool.and_eq_true] at hcm
                    have hcr3 := can_read_le hcm.1
                    exact posOk_trans (posOk_trans hC (posOk_bump hcr3)) (ihol _ _)
      next => exact posOk_refl st

/-!
## Claim theorems
-/

/-- C1 (code bug): the claim says every node allocated during a failing parse
is freed before the error propagates.  The code violates it: on input `1 x`
the trailing-junk throw sits after the `try`/`catch`, so the root `Number`
node is never destroyed (1 allocation, 0 frees); and on input `[1}` the
error raised inside `parse_array`'s loop drops the already-linked element
chain, so only the dispatcher's own fresh node is freed (2 allocations,
1 free). -/
theorem claim_C1 :
    (errOf (parse_json 10 (initSt ['1', ' ', 'x'])) = some (.trailingJunk 2)
      ∧ (parse_json 10 (initSt ['1', ' ', 'x'])).2.allocated = 1
      ∧ (parse_json 10 (initSt ['1', ' ', 'x'])).2.freed = 0)
  ∧ (errOf (parse_json 10 (initSt ['[', '1', '}'])) = some (.invalidArrayContinuation 2)
      ∧ (parse_json 10 (initSt ['[', '1', '}'])).2.allocated = 2
      ∧ (parse_json 10 (initSt ['[', '1', '}'])).2.freed = 1) := by
  decide

/-- C2 (code bug): the claim says each recognized escape — `\"` among them —
decodes with no error, so the document `"a\"b"` yields the three characters
`a"b`.  In the code the `case '"': case '\\': case '/':` arms fall through
into the unknown-escape throw, so parsing the 6-byte document `"a\"b"`
fails with the unknown-escape error at offset 2 (the backslash). -/
theorem claim_C2 :
    errOf (parse_json 10 (initSt ['"', 'a', '\\', '"', 'b', '"'])) = some (.unknownEscape 2)
  ∧ (parse_json 10 (initSt ['"', 'a', '\\', '"', 'b', '"'])).2.allocated = 1
  ∧ (parse_json 10 (initSt ['"', 'a', '\\', '"', 'b', '"'])).2.freed = 1 := by
  decide

/-- C3 (code bug): the claim says `depth` returns to its pre-call value on
every return — the empty-container fast path included — so a top-level parse
ends at `depth = 0`.  The code's empty-array fast path returns without
decrementing: parsing `[]` succeeds yet leaves the cursor at `depth = 1`
(and `pos = 1`: the `]` is not even consumed). -/
theorem claim_C3 :
    is_ok (parse_json 10 (initSt ['[', ']'])) = true
  ∧ (parse_json 10 (initSt ['[', ']'])).2.depth = 1
  ∧ (parse_json 10 (initSt ['[', ']'])).2.pos = 1 := by
  decide

/-- C4 (code bug): the claim says a well-formed array's child chain has
exactly one node per syntactic element, explicitly including empty
containers as elements.  On `[[],5]` — two syntactic elements — the empty
container's unconsumed `]` makes the outer loop break early: the parse
"succeeds" with a child chain of one node, and the `,5]` tail is never
consumed (`pos = 3`). -/
theorem claim_C4 :
    result_child_chain (parse_json 10 (initSt ['[', '[', ']', ',', '5', ']'])) = some 1
  ∧ (parse_json 10 (initSt ['[', '[', ']', ',', '5', ']'])).2.pos = 3 := by
  decide

/-- C5 (code bug): the claim says any non-whitespace content after a complete
top-level value fails with the trailing-junk error.  On `[] x` the
empty-container fast path leaves `depth = 1`, so the dispatcher's
`depth == 0` guard never fires: the parse succeeds with `x` (and even the
`]`) unconsumed. -/
theorem claim_C5 :
    is_ok (parse_json 10 (initSt ['[', ']', ' ', 'x'])) = true
  ∧ (parse_json 10 (initSt ['[', ']', ' ', 'x'])).2.pos = 1 := by
  decide

/-- C7 (code bug): the claim says every input reaching nesting
`NESTING_LIMIT + 1` fails with the nesting-limit error.  `c7_input` is the
well-formed array `[[],D]` with `D` nested 1000 deep — maximum container
nesting exactly 1001 = `PARSER_NESTING_LIMIT + 1` — yet the parse succeeds:
after the empty container the outer loop breaks at the unconsumed `]`
(`pos = 3`), so the deep element is never visited and no limit check ever
fires. -/
theorem claim_C7 :
    bracket_nesting c7_input = PARSER_NESTING_LIMIT + 1
  ∧ is_ok (parse_json 20 (initSt c7_input)) = true
  ∧ (parse_json 20 (initSt c7_input)).2.pos = 3 := by
  have hshape : c7_input = '[' :: '[' :: ']' :: ',' :: (deepArrays 1000 ++ [']']) := by
    rw [c7_input]
    simp only [List.cons_append, List.nil_append]
  have hlen : (deepArrays 1000 ++ [']']).length = 2002 := by
    rw [deepArrays]
    simp only [List.length_append, List.length_replicate, List.length_cons, List.length_nil]
  have hrun := parse_json_c7_shape (deepArrays 1000 ++ [']']) hlen
  refine ⟨bracket_nesting_c7, ?_, ?_⟩
  · rw [hshape, hrun]; rfl
  · rw [hshape, hrun]

/-- C8 (confirmed): parsing `5.9` returns a root `Number` node with scalar
value 5.9 (the exact decimal 59/10 in this embedding), no name, no `next`
sibling and no `child`; the cursor consumed the whole input.  (`prev` is the
non-owning mirror of `next` and is likewise absent.) -/
theorem claim_C8 :
    parse_json 10 (initSt ['5', '.', '9']) =
      (.ok (.mk none none none .j_number (59/10) [] false),
       { raw_json := ['5', '.', '9'], depth := 0, pos := 3, allocated := 1, freed := 0 }) := by
  simp +decide [parse_json, parse_json_try, initSt, skip_whitespace, ws_count, getCh,
    can_read, is_space, is_digit, parse_number, strtod_lexeme, strtod_hex, strtod_dec, strtod_sign,
    scan_significand, scan_exponent, apply_exponent, digits_val, digit_val]
  norm_num

/-- C9 (confirmed): parsing the empty input fails with the invalid-JSON
error at offset 0; `can_read` is false on the empty buffer for every request,
so every guarded dispatcher branch falls through to the final `else`, and
the one allocated node is freed by the catch. -/
theorem claim_C9 :
    errOf (parse_json 10 (initSt [])) = some (.invalidJSON 0)
  ∧ (∀ bytes : Nat, can_read (initSt []) bytes = false)
  ∧ (parse_json 10 (initSt [])).2.allocated = 1
  ∧ (parse_json 10 (initSt [])).2.freed = 1 :=
  ⟨by decide, fun _ => rfl, by decide, by decide⟩

/-- C6 counterexample: the claim asserts `pos ≤ len(bytes)` at all times, for
any input "including an unterminated string literal" — but on exactly that
input the string scanner violates it.  Scanning the unterminated literal
`abc` (cursor just past the opening quote of the document `"abc`, length 4),
the loop stops at `pos = 4` and the closing-quote `pos++` then leaves
`pos = 5 > 4`. -/
theorem claim_C6_counterexample :
    (parse_string { raw_json := ['"', 'a', 'b', 'c'], pos := 1 }).2.pos = 5
  ∧ (['"', 'a', 'b', 'c'] : List Char).length = 4 := by
  decide

/-- C6 (amended): throughout every parse the cursor is monotonically
non-decreasing, the input is never modified, and `pos` stays within
`len(bytes) + 1` (not `len(bytes)`: the string scanner's closing-quote
consumption can leave `pos = len + 1` on an unterminated literal, which is
what `PosOk` allows for).  Stated for each scanner and parser function: the
whitespace skipper and the number scanner unconditionally, the string
scanner from any in-bounds start (it is only ever entered just past an
opening quote, hence in bounds), and the recursive parser functions at every
fuel. -/
theorem claim_C6 :
    (∀ st : ParseBuffer, PosOk st (skip_whitespace st))
  ∧ (∀ st : ParseBuffer, PosOk st (parse_number st).2)
  ∧ (∀ st : ParseBuffer, st.pos ≤ st.raw_json.length → PosOk st (parse_string st).2)
  ∧ (∀ (fuel : Nat) (st : ParseBuffer), PosOk st (parse_json fuel st).2)
  ∧ (∀ (fuel : Nat) (st : ParseBuffer), PosOk st (parse_array fuel st).2)
  ∧ (∀ (fuel : Nat) (st : ParseBuffer), PosOk st (parse_object fuel st).2) :=
  ⟨posOk_skip, posOk_parse_number, fun _ h => posOk_parse_string h,
   fun fuel => (parser_posOk fuel).1,
   fun fuel => (parser_posOk fuel).2.2.1,
   fun fuel => (parser_posOk fuel).2.2.2.2.1⟩

/-- C6 witness: the amended invariant applied at concrete inputs, the
string-scanner hypothesis discharged at a concrete in-bounds cursor. -/
theorem claim_C6_witness :
    PosOk (initSt ['1']) (skip_whitespace (initSt ['1']))
  ∧ PosOk (initSt ['1']) (parse_number (initSt ['1'])).2
  ∧ PosOk { raw_json := ['"', 'a'], pos := 1 } (parse_string { raw_json := ['"', 'a'], pos := 1 }).2
  ∧ PosOk (initSt ['1']) (parse_json 5 (initSt ['1'])).2 :=
  ⟨claim_C6.1 _, claim_C6.2.1 _,
   claim_C6.2.2.1 { raw_json := ['"', 'a'], pos := 1 } (by decide),
   claim_C6.2.2.2.1 5 _⟩

/-- C10 (confirmed): the number scanner accepts the full `strtod` lexeme
syntax, hexadecimal included: the dispatcher routes the leading `0` of
`0x10` to `parse_number`, which consumes all four bytes and yields a
`Number` node of value 16. -/
theorem claim_C10 :
    parse_json 10 (initSt ['0', 'x', '1', '0']) =
      (.ok (.mk none none none .j_number 16 [] false),
       { raw_json := ['0', 'x', '1', '0'], depth := 0, pos := 4, allocated := 1, freed := 0 }) := by
  simp +decide [parse_json, parse_json_try, initSt, skip_whitespace, ws_count, getCh,
    can_read, is_space, is_digit, is_hex_digit, parse_number, strtod_lexeme, strtod_hex, strtod_dec, strtod_sign,
    scan_significand, scan_exponent, apply_exponent, digits_val, digit_val, hex_digit_val]

end Parsejson
